import Mathlib

/-!
Verification of the structural sanitizer in fix_chapters.py
("Complete Ambient Indicator Cleaner v2").

The script works purely on text through Python re.sub / re.search calls, so
the embedding starts from a small executable regular-expression engine with
Python's semantics for the constructs the script actually uses: leftmost
match, backtracking priority (greedy repetition prefers longer, lazy prefers
shorter, alternation prefers the left branch), capture groups referenced as
backslash-1 / backslash-2 in replacement templates, DOTALL dot, IGNORECASE
literals, and the character classes [^c], the class of decimal digits, and
the class of whitespace.

Modelling conventions (documented deviations, all irrelevant to the inputs
the claims are decided on):
- text is List Char; the class of digits is modelled as ASCII digits and
  the whitespace class as the six ASCII whitespace characters, while Python
  also accepts further Unicode code points in these classes;
- IGNORECASE is modelled as ASCII case folding via Char.toLower;
- the matcher is fueled so that every definition is a computable structural
  recursion; matFuel below is a proven-generous bound on the call depth, so
  on every concrete input the fueled matcher agrees with an unfueled
  backtracking search.
-/

set_option maxRecDepth 100000

namespace AmbientCleaner

/-- Regular-expression syntax: empty word, single-character predicate,
concatenation, prioritized alternation, repetition (true = greedy,
false = lazy), and a numbered capture group. -/
inductive RE where
  | eps : RE
  | chP : (Char → Bool) → RE
  | seq : RE → RE → RE
  | alt : RE → RE → RE
  | star : Bool → RE → RE
  | group : Nat → RE → RE

/-- Captured groups: association list from group number to captured text. -/
abbrev Caps := List (Nat × List Char)

/-- Size of a regular expression, used to compute a sufficient fuel bound. -/
def reSize : RE → Nat
  | .eps => 1
  | .chP _ => 1
  | .seq a b => reSize a + reSize b + 1
  | .alt a b => reSize a + reSize b + 1
  | .star _ a => reSize a + 1
  | .group _ a => reSize a + 1

/-- Backtracking matcher. mat fuel r s lists every way r can match a prefix
of s, as pairs (remaining suffix, captures), in Python's backtracking
priority order: the head of the list is the alternative Python commits to.
Repetition refuses an iteration that consumes nothing, which is Python's
rule for empty repeats. Fuel only bounds the recursion depth; with the fuel
supplied by matTop it is never exhausted. -/
def mat : Nat → RE → List Char → List (List Char × Caps)
  | 0, _, _ => []
  | fuel + 1, r, s =>
    match r with
    | .eps => [(s, [])]
    | .chP f =>
      match s with
      | [] => []
      | c :: rest => if f c then [(rest, [])] else []
    | .seq a b =>
      (mat fuel a s).flatMap (fun p => (mat fuel b p.1).map (fun q => (q.1, p.2 ++ q.2)))
    | .alt a b => mat fuel a s ++ mat fuel b s
    | .star g a =>
      let deeper :=
        ((mat fuel a s).filter (fun p => p.1.length < s.length)).flatMap
          (fun p => (mat fuel (.star g a) p.1).map (fun q => (q.1, p.2 ++ q.2)))
      if g then deeper ++ [(s, [])] else (s, []) :: deeper
    | .group n a =>
      (mat fuel a s).map (fun p => (p.1, (n, s.take (s.length - p.1.length)) :: p.2))

/-- Fuel that provably dominates the matcher's recursion depth. -/
def matFuel (r : RE) (s : List Char) : Nat := (reSize r + 2) * (s.length + 2)

/-- All matches of r at the start of s, best (Python-chosen) first. -/
def matTop (r : RE) (s : List Char) : List (List Char × Caps) := mat (matFuel r s) r s

/-- Result of a successful unanchored search: the text splits as
pre ++ matched ++ rest, with the captures of the chosen match. -/
structure MatchRes where
  pre : List Char
  matched : List Char
  rest : List Char
  caps : Caps
deriving DecidableEq

/-- Leftmost unanchored search, as in re.search / the scan of re.sub: try an
anchored match at each successive start position and keep the first
position that matches, resolved by backtracking priority. -/
def findAux (r : RE) : List Char → Option MatchRes
  | [] =>
    match (matTop r []).head? with
    | some p => some ⟨[], [].take (0 - p.1.length), p.1, p.2⟩
    | none => none
  | c :: t =>
    match (matTop r (c :: t)).head? with
    | some p => some ⟨[], (c :: t).take ((c :: t).length - p.1.length), p.1, p.2⟩
    | none => (findAux r t).map (fun m => ⟨c :: m.pre, m.matched, m.rest, m.caps⟩)

/-- Bool version of re.search: does the pattern occur anywhere in s? -/
def searchB (r : RE) (s : List Char) : Bool := (findAux r s).isSome

/-- Replacement template item: literal text or a backreference to a group. -/
inductive RTmpl where
  | txt : String → RTmpl
  | grp : Nat → RTmpl

/-- Instantiate a replacement template with the captures of a match. -/
def expand (caps : Caps) : List RTmpl → List Char
  | [] => []
  | .txt s :: rest => s.toList ++ expand caps rest
  | .grp n :: rest => ((caps.lookup n).getD []) ++ expand caps rest

/-- Global substitution, as in re.sub: repeatedly take the leftmost match,
emit the expanded template, and continue after the match (after an empty
match, Python additionally copies one character before continuing). Fuel
bounds the number of replacements; pySub supplies length + 1, enough for
any run of non-overlapping matches. -/
def subst (r : RE) (tmpl : List RTmpl) : Nat → List Char → List Char
  | 0, s => s
  | fuel + 1, s =>
    match findAux r s with
    | none => s
    | some m =>
      if m.matched.isEmpty then
        match m.rest with
        | [] => m.pre ++ expand m.caps tmpl
        | c :: t => m.pre ++ expand m.caps tmpl ++ c :: subst r tmpl fuel t
      else m.pre ++ expand m.caps tmpl ++ subst r tmpl fuel m.rest

/-- re.sub(pattern, template, s). -/
def pySub (r : RE) (tmpl : List RTmpl) (s : List Char) : List Char :=
  subst r tmpl (s.length + 1) s

/-! ### Pattern combinators

Small helpers that transliterate the pieces of Python regex syntax the
script uses. -/

/-- A case-sensitive literal character. -/
def lit (c : Char) : RE := .chP (fun d => d == c)

/-- A literal character under IGNORECASE (ASCII case folding). -/
def litCI (c : Char) : RE := .chP (fun d => d.toLower == c.toLower)

/-- A case-sensitive literal string. -/
def strR (s : String) : RE := s.toList.foldr (fun c r => .seq (lit c) r) .eps

/-- A literal string under IGNORECASE. -/
def strCI (s : String) : RE := s.toList.foldr (fun c r => .seq (litCI c) r) .eps

/-- The whitespace class (ASCII part of Python's class). -/
def pySpace (c : Char) : Bool :=
  c == ' ' || c == '\t' || c == '\n' || c == '\r' || c == '\x0b' || c == '\x0c'

/-- Zero or more whitespace characters, greedy. -/
def wsStar : RE := .star true (.chP pySpace)

/-- One or more whitespace characters, greedy. -/
def wsPlus : RE := .seq (.chP pySpace) wsStar

/-- One or more decimal digits, greedy. -/
def digitsPlus : RE := .seq (.chP Char.isDigit) (.star true (.chP Char.isDigit))

/-- The negated class [^c]. -/
def notCh (c : Char) : RE := .chP (fun d => !(d == c))

/-- Greedy [^c]*. -/
def notStar (c : Char) : RE := .star true (notCh c)

/-- Greedy [^c]+ (not used by the script but kept for symmetry). -/
def notPlus (c : Char) : RE := .seq (notCh c) (notStar c)

/-- Lazy dot-star under DOTALL (every use of the dot in the script is under
the DOTALL flag). -/
def dotLazy : RE := .star false (.chP (fun _ => true))

/-- Concatenation of a list of patterns. -/
def cat (l : List RE) : RE := l.foldr .seq .eps

/-- Greedy optional group. -/
def opt (r : RE) : RE := .alt r .eps

/-- Prioritized alternation of a list of branches. -/
def altList : List RE → RE
  | [] => .chP (fun _ => false)
  | [r] => r
  | r :: rest => .alt r (altList rest)

/-! ### The patterns of fix_chapters.py

Each definition transliterates one regex literal of the source, in source
order, with a comment giving the original pattern. -/

/-- STEP 1, patterns_full_block[0] (DOTALL, IGNORECASE):
div open tag, any attributes, class containing fixed bottom-N right-N,
lazily up to two consecutive closing div tags. -/
def pat_full_1 : RE := cat
  [strCI "<div", notStar '>', strCI "class=\"", notStar '"',
   strCI "fixed", wsPlus, strCI "bottom-", digitsPlus, wsPlus, strCI "right-", digitsPlus,
   notStar '"', lit '"', notStar '>', lit '>',
   dotLazy, strCI "</div>", wsStar, strCI "</div>", wsStar]

/-- STEP 1, patterns_full_block[1] (DOTALL, IGNORECASE):
class containing fixed ... bottom ... right ... z-50, one closing div. -/
def pat_full_2 : RE := cat
  [strCI "<div", notStar '>', strCI "class=\"", notStar '"',
   strCI "fixed", notStar '"', strCI "bottom", notStar '"', strCI "right", notStar '"',
   strCI "z-50", notStar '"', lit '"', notStar '>', lit '>',
   dotLazy, strCI "</div>", wsStar]

/-- STEP 1, patterns_full_block[2] (DOTALL, IGNORECASE):
class containing reader-hide ... fixed. -/
def pat_full_3 : RE := cat
  [strCI "<div", notStar '>', strCI "class=\"", notStar '"',
   strCI "reader-hide", notStar '"', strCI "fixed", notStar '"', lit '"',
   notStar '>', lit '>', dotLazy, strCI "</div>", wsStar]

/-- STEP 1, patterns_full_block[3] (DOTALL, IGNORECASE):
class containing fixed ... reader-hide. -/
def pat_full_4 : RE := cat
  [strCI "<div", notStar '>', strCI "class=\"", notStar '"',
   strCI "fixed", notStar '"', strCI "reader-hide", notStar '"', lit '"',
   notStar '>', lit '>', dotLazy, strCI "</div>", wsStar]

/-- STEP 2, animation_bar_patterns[0] (DOTALL): the fully spelled-out leaf
widget, w-1 with a colored bar class, optional animate-pulse and delay. -/
def pat_anim_1 : RE := cat
  [strR "<div", wsPlus, strR "class=\"w-1", wsPlus, strR "bg-",
   altList [strR "purple", strR "green", strR "cyan", strR "red", strR "amber",
            strR "blue", strR "yellow", strR "pink", strR "orange"],
   lit '-', digitsPlus, wsPlus, strR "h-", digitsPlus,
   opt (cat [wsPlus, strR "animate-pulse"]),
   opt (cat [wsPlus, strR "delay-", digitsPlus]),
   lit '"', notStar '>', lit '>', wsStar, strR "</div>", wsStar]

/-- STEP 2, animation_bar_patterns[1] (DOTALL):
w-1 ... bg- ... animate-pulse inside the class attribute. -/
def pat_anim_2 : RE := cat
  [strR "<div", wsPlus, strR "class=\"w-1", notStar '"', strR "bg-", notStar '"',
   strR "animate-pulse", notStar '"', lit '"', notStar '>', lit '>',
   wsStar, strR "</div>", wsStar]

/-- STEP 2, animation_bar_patterns[2] (DOTALL):
animate-pulse ... w-1 inside the class attribute. -/
def pat_anim_3 : RE := cat
  [strR "<div", wsPlus, strR "class=\"", notStar '"', strR "animate-pulse",
   notStar '"', strR "w-1", notStar '"', lit '"', notStar '>', lit '>',
   wsStar, strR "</div>", wsStar]

/-- Group 1 of the orphan patterns: the body-opening tag. -/
def bodyGroup : RE := .group 1 (cat [strR "<body", notStar '>', lit '>'])

/-- STEP 3, orphan_pattern1 (DOTALL): body-opening tag, whitespace, a
closing div tag; replaced by group 1 and a newline. -/
def pat_orphan1 : RE := cat [bodyGroup, wsStar, strR "</div>", wsStar]

/-- STEP 4, ambient_span_patterns[0] (DOTALL, IGNORECASE): a span whose
text contains the marker word followed by a colon. -/
def pat_span_1 : RE := cat
  [strCI "<span", notStar '>', lit '>', notStar '<',
   strCI "Ambient", wsStar, lit ':', wsStar, notStar '<', strCI "</span>", wsStar]

/-- STEP 4, ambient_span_patterns[1] (DOTALL, IGNORECASE):
span with class text-xs ... font-ui ... tracking-widest. -/
def pat_span_2 : RE := cat
  [strCI "<span", notStar '>', strCI "class=\"", notStar '"', strCI "text-xs",
   notStar '"', strCI "font-ui", notStar '"', strCI "tracking-widest", notStar '"',
   lit '"', notStar '>', lit '>', notStar '<', strCI "</span>", wsStar]

/-- STEP 4, ambient_span_patterns[2] (DOTALL, IGNORECASE):
span with class font-ui ... text-neutral-400 ... uppercase. -/
def pat_span_3 : RE := cat
  [strCI "<span", notStar '>', strCI "class=\"", notStar '"', strCI "font-ui",
   notStar '"', strCI "text-neutral-400", notStar '"', strCI "uppercase", notStar '"',
   lit '"', notStar '>', lit '>', notStar '<', strCI "</span>", wsStar]

/-- STEP 5, orphan_container_patterns[0] (DOTALL): empty flex container
with class flex gap-1 h-3 items-end. -/
def pat_flex_1 : RE := cat
  [strR "<div", wsPlus, strR "class=\"", notStar '"', strR "flex", wsPlus,
   strR "gap-1", wsPlus, strR "h-3", wsPlus, strR "items-end", notStar '"',
   lit '"', notStar '>', lit '>', wsStar, strR "</div>", wsStar]

/-- STEP 5, orphan_container_patterns[1] (DOTALL): empty container whose
class starts with flex gap-1. -/
def pat_flex_2 : RE := cat
  [strR "<div", wsPlus, strR "class=\"flex", wsPlus, strR "gap-1", notStar '"',
   lit '"', notStar '>', lit '>', wsStar, strR "</div>", wsStar]

/-- STEP 5, orphan_container_patterns[2] (DOTALL): body-opening tag followed
by two orphaned closing div tags. The source replaces it by the empty
string, since its backreference test inspects the pattern text, which has
no backslash-1 in it. -/
def pat_orphan2 : RE := cat
  [bodyGroup, wsStar, strR "</div>", wsStar, strR "</div>", wsStar]

/-- STEP 5, orphan_container_patterns[3] (DOTALL): body-opening tag followed
by one orphaned closing div tag; empty replacement, as for
orphan_container_patterns[2]. -/
def pat_orphan3 : RE := cat [bodyGroup, wsStar, strR "</div>", wsStar]

/-- STEP 6, body_cleanup_pattern (DOTALL): between the body-opening tag
(group 1) and the first main-content marker (group 2), any interleaving of
orphaned w-1 leaf widgets, closing div tags and spans. -/
def pat_body_cleanup : RE := cat
  [bodyGroup, wsStar,
   .star true (cat [strR "<div", notStar '>', strR "class=\"w-1", notStar '"',
                    lit '"', notStar '>', strR "></div>", wsStar]),
   .star true (cat [strR "</div>", wsStar]),
   .star true (cat [strR "<span", notStar '>', lit '>', notStar '<',
                    strR "</span>", wsStar]),
   .star true (cat [strR "</div>", wsStar]),
   .group 2 (.alt (cat [wsStar, strR "<div class=\"bg-gradient\">"])
                  (cat [wsStar, strR "<main"]))]

/-- STEP 7, body_pattern (DOTALL): body-opening tag (group 1), junk made of
non-tag text and whole tags matched lazily, then the main-content marker
(group 2). The replacement function of the source produces exactly
group 1, a newline, two spaces, group 2. -/
def pat_body_junk : RE := cat
  [bodyGroup, notStar '<',
   .star false (cat [lit '<', notStar '>', lit '>', notStar '<']),
   .group 2 (cat [wsStar, lit '<',
                  altList [cat [strR "div", wsPlus, strR "class=\"bg-gradient\""],
                           strR "main"]])]

/-- STEP 7 guard: the re.search condition that enables the aggressive body
cleanup, a w-1 leaf widget directly after the body-opening tag. -/
def pat_cond7 : RE := cat
  [strR "<body", notStar '>', lit '>', wsStar, strR "<div", wsPlus, strR "class=\"w-1"]

/-- STEP 8, first blank-line collapse: four newlines separated by runs of
whitespace; replaced by two newlines. -/
def pat_nl4 : RE := cat
  [lit '\n', wsStar, lit '\n', wsStar, lit '\n', wsStar, lit '\n']

/-- STEP 8, second blank-line collapse: three newlines separated by runs of
whitespace; replaced by two newlines. -/
def pat_nl3 : RE := cat [lit '\n', wsStar, lit '\n', wsStar, lit '\n']

/-- verify_file check 2: div whose class starts with w-1 and mentions
animate-pulse. -/
def pat_verify_anim : RE := cat
  [strR "<div", notStar '>', strR "class=\"w-1", notStar '"', strR "animate-pulse"]

/-- verify_file check 3: body-opening tag followed by whitespace and a
closing div tag. -/
def pat_verify_orphan_close : RE := cat
  [strR "<body", notStar '>', lit '>', wsStar, strR "</div>"]

/-- verify_file check 4: body-opening tag followed by whitespace and an
opening div tag whose class starts with w-1. -/
def pat_verify_orphan_widget : RE := cat
  [strR "<body", notStar '>', lit '>', wsStar, strR "<div", notStar '>',
   strR "class=\"w-1"]

/-- The empty replacement. -/
def tEmpty : List RTmpl := []

/-- Replacement for the orphan patterns: group 1 then a newline. -/
def tBodyNL : List RTmpl := [.grp 1, .txt "\n"]

/-- Replacement for the body cleanup patterns: group 1, newline, two
spaces, group 2. -/
def tBodyIndent : List RTmpl := [.grp 1, .txt "\n  ", .grp 2]

/-- Replacement for the blank-line collapses: two newlines. -/
def tTwoNL : List RTmpl := [.txt "\n\n"]

/-! ### The sanitizer pipeline and the verifier -/

/-- Python's substring test needle in hay, on char lists. -/
def containsSub (needle : List Char) : List Char → Bool
  | [] => needle.isEmpty
  | c :: t => needle.isPrefixOf (c :: t) || containsSub needle t

/-- Substring test with a string literal needle. -/
def inStr (needle : String) (hay : List Char) : Bool := containsSub needle.toList hay

/-- clean_ambient_completely (fix_chapters.py lines 30-144): the ordered
pipeline of substitutions, applied to the full text; returns the new text
and whether it differs from the input. Each let binding is one re.sub call
of the source, in source order. In STEP 5 the source picks the group-1
replacement only for a pattern whose TEXT contains a backslash-1
backreference; none of the four pattern strings does (they contain
backslash-s and backslash-d only), so all four statically take the empty
replacement — the two body-orphan patterns of that step therefore delete
the body tag itself. STEP 7 only runs when its guard pattern occurs. -/
def clean_ambient_completely (content : List Char) : List Char × Bool :=
  let original := content
  -- STEP 1: full ambient blocks
  let c := pySub pat_full_1 tEmpty content
  let c := pySub pat_full_2 tEmpty c
  let c := pySub pat_full_3 tEmpty c
  let c := pySub pat_full_4 tEmpty c
  -- STEP 2: orphaned animation bars
  let c := pySub pat_anim_1 tEmpty c
  let c := pySub pat_anim_2 tEmpty c
  let c := pySub pat_anim_3 tEmpty c
  -- STEP 3: orphaned closing div directly after the body tag
  let c := pySub pat_orphan1 tBodyNL c
  -- STEP 4: ambient text spans
  let c := pySub pat_span_1 tEmpty c
  let c := pySub pat_span_2 tEmpty c
  let c := pySub pat_span_3 tEmpty c
  -- STEP 5: orphaned containers and a second orphan-closing-tag sweep
  let c := pySub pat_flex_1 tEmpty c
  let c := pySub pat_flex_2 tEmpty c
  let c := pySub pat_orphan2 tEmpty c
  let c := pySub pat_orphan3 tEmpty c
  -- STEP 6: compaction between body tag and the main-content marker
  let c := pySub pat_body_cleanup tBodyIndent c
  -- STEP 7: aggressive fallback, only if a w-1 widget sits right after body
  let c := if searchB pat_cond7 c then pySub pat_body_junk tBodyIndent c else c
  -- STEP 8: blank-line normalization
  let c := pySub pat_nl4 tTwoNL c
  let c := pySub pat_nl3 tTwoNL c
  (c, decide (c ≠ original))

/-- The cheap substring pre-check of process_file (lines 161-168). -/
def has_ambient (content : List Char) : Bool :=
  inStr "Ambient" content ||
  inStr "ambient" content ||
  (inStr "animate-pulse" content && inStr "w-1" content) ||
  inStr "bg-purple-500 h-" content ||
  inStr "bg-green-500 h-" content ||
  inStr "bg-cyan-500 h-" content

/-- The four issue checks of verify_file (lines 196-210), on the text it
read; each check appends its message independently of the others. -/
def verify_text (content : List Char) : List String :=
  (if inStr "Ambient:" content || inStr "Ambient :" content
   then ["Contains \x27Ambient:\x27"] else []) ++
  (if searchB pat_verify_anim content then ["Contains animation bars"] else []) ++
  (if searchB pat_verify_orphan_close content
   then ["Has orphaned </div> after body"] else []) ++
  (if searchB pat_verify_orphan_widget content
   then ["Has orphaned div after body"] else [])

/-! ### The chapter selector -/

/-- Numeric value of a run of decimal digits, as Python's int(). -/
def digitsVal (l : List Char) : Nat :=
  l.foldl (fun acc c => 10 * acc + (c.toNat - Char.toNat '0')) 0

/-- get_chapter_number (lines 16-21): re.match of digits-then-hyphen at the
start of the filename. The anchored backtracking match of that pattern
succeeds exactly when the maximal leading digit run is nonempty and is
followed by a hyphen (a shorter digit run is always followed by a digit,
never by a hyphen), which is what this definition computes. -/
def get_chapter_number (filename : List Char) : Option Nat :=
  match filename.dropWhile Char.isDigit with
  | '-' :: _ =>
    if (filename.takeWhile Char.isDigit).isEmpty then none
    else some (digitsVal (filename.takeWhile Char.isDigit))
  | _ => none

/-- The configured range start (line 13). -/
def START_CHAPTER : Nat := 1

/-- The configured range end (line 14). -/
def END_CHAPTER : Nat := 378

/-- should_process_file (lines 23-28), with the range as parameters. -/
def should_process_file (startC endC : Nat) (filename : List Char) : Bool :=
  match get_chapter_number filename with
  | none => false
  | some n => decide (startC ≤ n) && decide (n ≤ endC)

/-- The sort key of main line 233: the chapter number, with 0 when the
Python expression (get_chapter_number or 0) is falsy. -/
def chapKey (f : String) : Nat := (get_chapter_number f.toList).getD 0

/-- Stable ascending insertion by chapter key. -/
def insertByKey (x : String) : List String → List String
  | [] => [x]
  | y :: ys => if chapKey y ≤ chapKey x then y :: insertByKey x ys else x :: y :: ys

/-- Stable ascending sort by chapter key, the behavior of list.sort with
the chapter-number key (a stable ascending sort is unique as a function of
the input list): inserting each element in input order behind the already
placed elements of smaller-or-equal key keeps equal keys in input order. -/
def sortByKey (l : List String) : List String := l.foldl (fun acc x => insertByKey x acc) []

/-- main lines 231-233: restrict the *.html listing to the configured
range and order it by chapter number. The input list stands for the glob
result, one name per file. -/
def target_files (startC endC : Nat) (files : List String) : List String :=
  sortByKey (files.filter (fun f => should_process_file startC endC f.toList))

/-! ### The per-document run model

File contents live in an association list from names to entries; a bad
entry stands for a file on which every read and write raises, and a
missing name for a file whose open raises. This models the IOFailure
taxonomy of the spec without real IO. -/

/-- One stored file: readable content, or a file whose IO always fails. -/
inductive Entry where
  | ok : List Char → Entry
  | bad : Entry
deriving DecidableEq

/-- The modelled directory. -/
abbrev FS := List (String × Entry)

/-- Read a file; none models a raised IO exception. -/
def fsRead (fs : FS) (name : String) : Option (List Char) :=
  match fs.lookup name with
  | some (.ok c) => some c
  | _ => none

/-- Write a file; none models a raised IO exception (a bad entry rejects
writes too); writing a new name creates it, as open(w) does. -/
def fsWrite (fs : FS) (name : String) (c : List Char) : Option FS :=
  match fs.lookup name with
  | some .bad => none
  | _ => some ((name, .ok c) :: fs.eraseP (fun p => p.1 == name))

/-- The outcome classification of process_file. -/
inductive Outcome where
  | skipped
  | already_clean
  | cleaned
  | no_changes
  | error
deriving DecidableEq

/-- process_file (lines 146-188) on the modelled directory. Returns the
outcome, the directory afterwards, how many times the pipeline ran, and
whether the file was written. Reads and writes that fail are caught here,
producing the error outcome, exactly like the try block of the source. -/
def process_file (fs : FS) (name : String) : Outcome × FS × Nat × Bool :=
  if (get_chapter_number name.toList).isNone then (.skipped, fs, 0, false)
  else
    match fsRead fs name with
    | none => (.error, fs, 0, false)
    | some content =>
      if !has_ambient content then (.already_clean, fs, 0, false)
      else
        if (clean_ambient_completely content).2 then
          match fsWrite fs name (clean_ambient_completely content).1 with
          | none => (.error, fs, 1, false)
          | some fs' => (.cleaned, fs', 1, true)
        else (.no_changes, fs, 1, false)

/-- verify_file (lines 190-212) on the modelled directory: a failed read is
caught and reported as the reading-error issue. -/
def verify_file (fs : FS) (name : String) : List String :=
  match fsRead fs name with
  | none => ["Error reading file"]
  | some content => verify_text content

/-- Record of one first-pass iteration. -/
structure Pass1Rec where
  name : String
  outcome : Outcome
  cleanCalls : Nat
  wrote : Bool
deriving DecidableEq

/-- Record of one second-pass iteration. -/
structure Pass2Rec where
  name : String
  issues : List String
  cleanCalls : Nat
  wrote : Bool
  attention : Option (String × List String)
deriving DecidableEq

/-- One iteration of the second pass (main lines 253-270): verify; if
issues were reported, re-read, re-clean, write unconditionally, and verify
again, collecting a needs-attention entry when issues remain. The re-read
and the write are outside any try in the source, so their failure is an
uncaught exception: none. -/
def pass2_file (fs : FS) (name : String) : Option (Pass2Rec × FS) :=
  if (verify_file fs name).isEmpty then
    some (⟨name, verify_file fs name, 0, false, none⟩, fs)
  else
    match fsRead fs name with
    | none => none
    | some content =>
      match fsWrite fs name (clean_ambient_completely content).1 with
      | none => none
      | some fs' =>
        some (⟨name, verify_file fs name, 1, true,
               if (verify_file fs' name).isEmpty then none
               else some (name, verify_file fs' name)⟩, fs')

/-- The first pass of main (lines 243-245). -/
def pass1_loop (fs : FS) : List String → List Pass1Rec × FS
  | [] => ([], fs)
  | name :: rest =>
    let r := process_file fs name
    let tail := pass1_loop r.2.1 rest
    (⟨name, r.1, r.2.2.1, r.2.2.2⟩ :: tail.1, tail.2)

/-- The second pass of main (lines 252-270); the Bool reports whether the
loop ran to completion — an uncaught exception stops it, discarding the
rest of the run including the summary. -/
def pass2_loop (fs : FS) : List String → List Pass2Rec × FS × Bool
  | [] => ([], fs, true)
  | name :: rest =>
    match pass2_file fs name with
    | none => ([], fs, false)
    | some (rec2, fs') =>
      let tail := pass2_loop fs' rest
      (rec2 :: tail.1, tail.2)

/-- The observable result of one run of main. -/
structure RunResult where
  results : List Pass1Rec
  pass2 : List Pass2Rec
  needs_attention : List (String × List String)
  completed : Bool
  summaryEmitted : Bool
  fs : FS
deriving DecidableEq

/-- main (lines 214-297) over the modelled directory: select targets, run
the cleaning pass, run the verification and re-clean pass, and emit the
summary — which the source only reaches when no uncaught exception
aborted the second pass. -/
def main_run (startC endC : Nat) (files : List String) (fs0 : FS) : RunResult :=
  let targets := target_files startC endC files
  let p1 := pass1_loop fs0 targets
  let p2 := pass2_loop p1.2 targets
  { results := p1.1
    pass2 := p2.1
    needs_attention := p2.1.filterMap (·.attention)
    completed := p2.2.2
    summaryEmitted := p2.2.2
    fs := p2.2.1 }

/-! ### Declarative matching semantics and defect-freedom predicates -/

/-- Declarative matching: Sem r u holds when the pattern r matches exactly
the word u. The backtracking matcher only ever returns splits whose
consumed part satisfies this relation. -/
inductive Sem : RE → List Char → Prop where
  | eps : Sem .eps []
  | chP {f : Char → Bool} {c : Char} : f c = true → Sem (.chP f) [c]
  | seq {a b : RE} {u v : List Char} : Sem a u → Sem b v → Sem (.seq a b) (u ++ v)
  | altL {a b : RE} {u : List Char} : Sem a u → Sem (.alt a b) u
  | altR {a b : RE} {u : List Char} : Sem b u → Sem (.alt a b) u
  | starNil {g : Bool} {a : RE} : Sem (.star g a) []
  | starCons {g : Bool} {a : RE} {u v : List Char} :
      Sem a u → Sem (.star g a) v → Sem (.star g a) (u ++ v)
  | group {n : Nat} {a : RE} {u : List Char} : Sem a u → Sem (.group n a) u

/-- No pattern of any pipeline stage (the nineteen substitution patterns
and the STEP 7 guard) occurs in the text: the text carries no defect
signature any stage could rewrite. -/
abbrev no_stage_pattern_matches (t : List Char) : Prop :=
  searchB pat_full_1 t = false ∧ searchB pat_full_2 t = false ∧
  searchB pat_full_3 t = false ∧ searchB pat_full_4 t = false ∧
  searchB pat_anim_1 t = false ∧ searchB pat_anim_2 t = false ∧
  searchB pat_anim_3 t = false ∧ searchB pat_orphan1 t = false ∧
  searchB pat_span_1 t = false ∧ searchB pat_span_2 t = false ∧
  searchB pat_span_3 t = false ∧ searchB pat_flex_1 t = false ∧
  searchB pat_flex_2 t = false ∧ searchB pat_orphan2 t = false ∧
  searchB pat_orphan3 t = false ∧ searchB pat_body_cleanup t = false ∧
  searchB pat_cond7 t = false ∧ searchB pat_body_junk t = false ∧
  searchB pat_nl4 t = false ∧ searchB pat_nl3 t = false

/-- None of the four verifier signatures occurs in the text. -/
abbrev no_verify_signature (t : List Char) : Prop :=
  inStr "Ambient:" t = false ∧ inStr "Ambient :" t = false ∧
  searchB pat_verify_anim t = false ∧ searchB pat_verify_orphan_close t = false ∧
  searchB pat_verify_orphan_widget t = false

/-- The text contains no occurrence of any defect signature: neither a
pattern some stage rewrites nor a signature the verifier reports. -/
abbrev no_defect_signature (t : List Char) : Prop :=
  no_stage_pattern_matches t ∧ no_verify_signature t

/-- How many times the run invoked the pipeline on the named document:
pipeline invocations recorded for it in the first pass plus those recorded
in the second pass. -/
def cleanCallsFor (rr : RunResult) (name : String) : Nat :=
  (((rr.results.filter (fun r => r.name = name)).map Pass1Rec.cleanCalls).sum) +
  (((rr.pass2.filter (fun r => r.name = name)).map Pass2Rec.cleanCalls).sum)

/-- Concrete text used to refute idempotence: an ambient span whose marker
word and colon are separated by an empty flex container. -/
def tIdem : List Char := "<span>Ambient<div class=\"flex gap-1\"></div>: x</span>".toList

/-- Concrete text used to refute issue non-regression: a leaf widget
wedged between the marker word and a colon. -/
def tRegr : List Char :=
  "Ambient<div class=\"w-1 bg-purple-500 h-3 animate-pulse\"></div>:".toList

/-- Concrete text used to refute already-clean soundness: an orphaned
closing div right after the body tag, with no pre-check substring. -/
def tOrphan : List Char := "<body></div>".toList

/-- Concrete text for the write-only-if-changed refutation: a marker label
in plain prose, which the verifier flags but no stage rewrites. -/
def tStuck : List Char := "Ambient: x".toList

/-! ## Theorems

General lemmas about the engine first, then one theorem per claim (with
its witness or counterexample). -/

theorem findAux_eq_none {r : RE} {s : List Char} (h : searchB r s = false) :
    findAux r s = none := by
  cases hfa : findAux r s with
  | none => rfl
  | some m => unfold searchB at h; rw [hfa] at h; simp at h

theorem subst_id_of_findAux_none {r : RE} {tmpl : List RTmpl} {fuel : Nat} {s : List Char}
    (h : findAux r s = none) : subst r tmpl fuel s = s := by
  cases fuel with
  | zero => rfl
  | succ n => unfold subst; rw [h]

theorem pySub_id_of_not_search {r : RE} {tmpl : List RTmpl} {s : List Char}
    (h : searchB r s = false) : pySub r tmpl s = s :=
  subst_id_of_findAux_none (findAux_eq_none h)

/-- A text none of whose stage patterns occurs passes through the whole
pipeline unchanged, and the pipeline reports no change. -/
theorem clean_id_of_no_stage_match {t : List Char} (h : no_stage_pattern_matches t) :
    clean_ambient_completely t = (t, false) := by
  obtain ⟨h1, h2, h3, h4, h5, h6, h7, h8, h9, h10, h11, h12, h13, h14, h15, h16,
    h17, h18, h19, h20⟩ := h
  unfold clean_ambient_completely
  simp only [pySub_id_of_not_search h1, pySub_id_of_not_search h2,
    pySub_id_of_not_search h3, pySub_id_of_not_search h4, pySub_id_of_not_search h5,
    pySub_id_of_not_search h6, pySub_id_of_not_search h7, pySub_id_of_not_search h8,
    pySub_id_of_not_search h9, pySub_id_of_not_search h10, pySub_id_of_not_search h11,
    pySub_id_of_not_search h12, pySub_id_of_not_search h13, pySub_id_of_not_search h14,
    pySub_id_of_not_search h15, pySub_id_of_not_search h16]
  simp [h17, pySub_id_of_not_search h18, pySub_id_of_not_search h19,
    pySub_id_of_not_search h20]

/-- A text none of whose verifier signatures occurs verifies clean. -/
theorem verify_empty_of_no_signature {t : List Char} (h : no_verify_signature t) :
    verify_text t = [] := by
  obtain ⟨h1, h2, h3, h4, h5⟩ := h
  unfold verify_text
  rw [h1, h2, h3, h4, h5]
  simp

/-- C2 (confirmed). Clean is the identity on defect-free documents: a text
with no occurrence of any defect signature (no stage pattern and no
verifier signature) is returned unchanged with changed = false, and the
verifier returns an empty issue list both before and after. -/
theorem clean_identity_on_defect_free (t : List Char) (h : no_defect_signature t) :
    clean_ambient_completely t = (t, false) ∧ verify_text t = [] ∧
    verify_text (clean_ambient_completely t).1 = [] := by
  obtain ⟨hs, hv⟩ := h
  have hc := clean_id_of_no_stage_match hs
  have hve := verify_empty_of_no_signature hv
  exact ⟨hc, hve, by rw [hc]; exact hve⟩

/-- Witness for C2 at a concrete defect-free text. -/
theorem clean_identity_on_defect_free_witness :
    no_defect_signature "hello".toList ∧
    (clean_ambient_completely "hello".toList = ("hello".toList, false) ∧
     verify_text "hello".toList = [] ∧
     verify_text (clean_ambient_completely "hello".toList).1 = []) :=
  ⟨by decide, clean_identity_on_defect_free _ (by decide)⟩

/-- C1 (corrected): the pipeline is not idempotent. On tIdem the first
invocation deletes the flex container between the marker word and the
colon, which splices a complete ambient span together; a second invocation
then deletes that span, so the text changes again and the second changed
flag is true, contradicting the claim on both components. -/
theorem clean_not_idempotent_cex :
    (clean_ambient_completely tIdem).2 = true ∧
    (clean_ambient_completely (clean_ambient_completely tIdem).1).1 ≠
      (clean_ambient_completely tIdem).1 ∧
    (clean_ambient_completely (clean_ambient_completely tIdem).1).2 = true := by
  decide

/-- C1 (corrected), amended: a second invocation of clean can change the
text again, so idempotence fails in general; clean is idempotent (and the
second run reports changed = false) on the texts in which no stage pattern
occurs, where it is the identity. -/
theorem clean_idempotent_on_pattern_free (t : List Char) (h : no_stage_pattern_matches t) :
    (clean_ambient_completely (clean_ambient_completely t).1).1 =
      (clean_ambient_completely t).1 ∧
    (clean_ambient_completely (clean_ambient_completely t).1).2 = false := by
  have hc := clean_id_of_no_stage_match h
  rw [hc]
  simpa using And.intro (congrArg Prod.fst hc) (congrArg Prod.snd hc)

/-- Witness for the amended C1 at a concrete pattern-free text. -/
theorem clean_idempotent_on_pattern_free_witness :
    no_stage_pattern_matches "world".toList ∧
    ((clean_ambient_completely (clean_ambient_completely "world".toList).1).1 =
       (clean_ambient_completely "world".toList).1 ∧
     (clean_ambient_completely (clean_ambient_completely "world".toList).1).2 = false) :=
  ⟨by decide, clean_idempotent_on_pattern_free _ (by decide)⟩

/-- C6 (corrected): cleaning can introduce an issue code that was not
present. On tRegr the only issue before cleaning is the animation-bar
code; deleting the leaf widget splices the marker word and the colon
together, so after cleaning the verifier reports the ambient-label code,
which was not reported before — the subset claim fails. -/
theorem verify_regression_cex :
    verify_text tRegr = ["Contains animation bars"] ∧
    verify_text (clean_ambient_completely tRegr).1 = ["Contains \x27Ambient:\x27"] ∧
    ¬(∀ i ∈ verify_text (clean_ambient_completely tRegr).1, i ∈ verify_text tRegr) := by
  refine ⟨by decide, by decide, ?_⟩
  intro hall
  have := hall "Contains \x27Ambient:\x27" (by decide)
  revert this
  decide

/-- C6 (corrected), amended: cleaning can introduce a new issue code in
general; the subset property does hold on every text in which no stage
pattern occurs, where cleaning changes nothing. -/
theorem no_issue_regression_on_pattern_free (t : List Char)
    (h : no_stage_pattern_matches t) :
    ∀ i ∈ verify_text (clean_ambient_completely t).1, i ∈ verify_text t := by
  rw [clean_id_of_no_stage_match h]
  exact fun i hi => hi

/-- Witness for the amended C6 at a concrete pattern-free text. -/
theorem no_issue_regression_on_pattern_free_witness :
    no_stage_pattern_matches "abc".toList ∧
    (∀ i ∈ verify_text (clean_ambient_completely "abc".toList).1,
       i ∈ verify_text "abc".toList) :=
  ⟨by decide, no_issue_regression_on_pattern_free _ (by decide)⟩

/-- C3 (confirmed). The verifier evaluates its four checks independently
and reports each matching one: every issue message is present exactly when
its signature occurs, and the issue list is empty exactly when none of the
four signatures occurs. -/
theorem verify_complete_and_sound (t : List Char) :
    (("Contains \x27Ambient:\x27" ∈ verify_text t) ↔
       (inStr "Ambient:" t || inStr "Ambient :" t) = true) ∧
    (("Contains animation bars" ∈ verify_text t) ↔ searchB pat_verify_anim t = true) ∧
    (("Has orphaned </div> after body" ∈ verify_text t) ↔
       searchB pat_verify_orphan_close t = true) ∧
    (("Has orphaned div after body" ∈ verify_text t) ↔
       searchB pat_verify_orphan_widget t = true) ∧
    (verify_text t = [] ↔
       ((inStr "Ambient:" t || inStr "Ambient :" t) = false ∧
        searchB pat_verify_anim t = false ∧
        searchB pat_verify_orphan_close t = false ∧
        searchB pat_verify_orphan_widget t = false)) := by
  unfold verify_text
  cases h1 : (inStr "Ambient:" t || inStr "Ambient :" t) <;>
    cases h2 : searchB pat_verify_anim t <;>
      cases h3 : searchB pat_verify_orphan_close t <;>
        cases h4 : searchB pat_verify_orphan_widget t <;>
          simp

/-- Membership under ordered insertion. -/
theorem mem_insertByKey {x y : String} {l : List String} :
    y ∈ insertByKey x l ↔ y = x ∨ y ∈ l := by
  induction l with
  | nil => simp [insertByKey]
  | cons a t ih =>
    unfold insertByKey
    split
    · simp [ih]; tauto
    · simp

/-- Membership under the fold that implements the stable sort. -/
theorem mem_sort_fold {l : List String} {acc : List String} {y : String} :
    y ∈ l.foldl (fun acc x => insertByKey x acc) acc ↔ y ∈ acc ∨ y ∈ l := by
  induction l generalizing acc with
  | nil => simp
  | cons a t ih => rw [List.foldl_cons, ih]; rw [mem_insertByKey]; simp; tauto

/-- Sorting neither adds nor removes filenames. -/
theorem mem_sortByKey {l : List String} {y : String} : y ∈ sortByKey l ↔ y ∈ l := by
  unfold sortByKey; rw [mem_sort_fold]; simp

/-- Ordered insertion preserves ascending key order. -/
theorem pairwise_insertByKey {x : String} {l : List String}
    (h : l.Pairwise (fun a b => chapKey a ≤ chapKey b)) :
    (insertByKey x l).Pairwise (fun a b => chapKey a ≤ chapKey b) := by
  induction l with
  | nil => simp [insertByKey]
  | cons a t ih =>
    rcases List.pairwise_cons.mp h with ⟨ha, ht⟩
    unfold insertByKey
    split
    · refine List.pairwise_cons.mpr ⟨?_, ih ht⟩
      intro b hb
      rcases mem_insertByKey.mp hb with rfl | hbt
      · assumption
      · exact ha b hbt
    · refine List.pairwise_cons.mpr ⟨?_, h⟩
      intro b hb
      have hxa : chapKey x ≤ chapKey a := le_of_not_le (by assumption)
      rcases List.mem_cons.mp hb with rfl | hbt
      · exact hxa
      · exact le_trans hxa (ha b hbt)

/-- The sort fold returns an ascending list from an ascending accumulator. -/
theorem pairwise_sort_fold {l acc : List String}
    (h : acc.Pairwise (fun a b => chapKey a ≤ chapKey b)) :
    (l.foldl (fun acc x => insertByKey x acc) acc).Pairwise
      (fun a b => chapKey a ≤ chapKey b) := by
  induction l generalizing acc with
  | nil => exact h
  | cons a t ih => exact ih (pairwise_insertByKey h)

/-- The selected files are in ascending chapter-key order. -/
theorem pairwise_sortByKey {l : List String} :
    (sortByKey l).Pairwise (fun a b => chapKey a ≤ chapKey b) :=
  pairwise_sort_fold List.Pairwise.nil

/-- Selection test, unfolded to the parsed chapter number. -/
theorem should_process_iff {startC endC : Nat} {l : List Char} :
    should_process_file startC endC l = true ↔
      ∃ n, get_chapter_number l = some n ∧ startC ≤ n ∧ n ≤ endC := by
  unfold should_process_file
  cases h : get_chapter_number l <;> simp

/-- Erasing one key leaves lookups of other keys unchanged. -/
theorem lookup_eraseP_ne {fs : FS} {n m : String} (hne : m ≠ n) :
    (fs.eraseP (fun p => p.1 == n)).lookup m = fs.lookup m := by
  induction fs with
  | nil => rfl
  | cons kv rest ih =>
    obtain ⟨k, v⟩ := kv
    by_cases hk : k = n
    · subst hk
      have hmk : (m == k) = false := by simp [hne]
      simp [List.eraseP_cons, List.lookup, hmk]
    · have hkn : (k == n) = false := by simp [hk]
      simp only [List.eraseP_cons, hkn, cond_false, List.lookup]
      cases hmk : m == k <;> simp [ih]

/-- A successful write changes no other file. -/
theorem fsRead_write_ne {fs fs' : FS} {n m : String} {c : List Char}
    (h : fsWrite fs n c = some fs') (hne : m ≠ n) : fsRead fs' m = fsRead fs m := by
  unfold fsWrite at h
  have hfs' : fs' = (n, .ok c) :: fs.eraseP (fun p => p.1 == n) := by
    rcases hl : fs.lookup n with _ | e
    · rw [hl] at h; exact (Option.some.injEq _ _ ▸ h).symm
    · cases e with
      | ok d => rw [hl] at h; exact (Option.some.injEq _ _ ▸ h).symm
      | bad => rw [hl] at h; exact absurd h (by simp)
  subst hfs'
  have hmn : (m == n) = false := by simp [hne]
  unfold fsRead
  rw [List.lookup, hmn]
  rw [lookup_eraseP_ne hne]

/-- The first pass touches only the file it is processing. -/
theorem process_file_frame {fs : FS} {name m : String} (hne : m ≠ name) :
    fsRead (process_file fs name).2.1 m = fsRead fs m := by
  unfold process_file
  split
  · rfl
  · split
    · rfl
    · split
      · rfl
      · split
        · split
          · rfl
          · next heq => exact fsRead_write_ne heq hne
        · rfl

/-- One second-pass iteration touches only the file it is processing. -/
theorem pass2_file_frame {fs fs' : FS} {name m : String} {rec2 : Pass2Rec}
    (h : pass2_file fs name = some (rec2, fs')) (hne : m ≠ name) :
    fsRead fs' m = fsRead fs m := by
  unfold pass2_file at h
  split at h
  · simp only [Option.some.injEq, Prod.mk.injEq] at h
    obtain ⟨-, rfl⟩ := h
    rfl
  · split at h
    · exact absurd h (by simp)
    · split at h
      · exact absurd h (by simp)
      · next heq =>
        simp only [Option.some.injEq, Prod.mk.injEq] at h
        obtain ⟨-, rfl⟩ := h
        exact fsRead_write_ne heq hne

/-- The first-pass loop touches only the files it is given. -/
theorem pass1_loop_frame {names : List String} {fs : FS} {m : String} (hm : m ∉ names) :
    fsRead (pass1_loop fs names).2 m = fsRead fs m := by
  induction names generalizing fs with
  | nil => rfl
  | cons a t ih =>
    have hma : m ≠ a := fun h => hm (h ▸ List.mem_cons_self a t)
    have hmt : m ∉ t := fun h => hm (List.mem_cons_of_mem a h)
    unfold pass1_loop
    rw [ih hmt, process_file_frame hma]

/-- The second-pass loop touches only the files it is given. -/
theorem pass2_loop_frame {names : List String} {fs : FS} {m : String} (hm : m ∉ names) :
    fsRead (pass2_loop fs names).2.1 m = fsRead fs m := by
  induction names generalizing fs with
  | nil => rfl
  | cons a t ih =>
    have hma : m ≠ a := fun h => hm (h ▸ List.mem_cons_self a t)
    have hmt : m ∉ t := fun h => hm (List.mem_cons_of_mem a h)
    unfold pass2_loop
    cases hp : pass2_file fs a with
    | none => rfl
    | some pr => rw [ih hmt, pass2_file_frame hp hma]

/-- A file outside the selected set is never touched by a run. -/
theorem main_run_frame {startC endC : Nat} {files : List String} {fs0 : FS} {m : String}
    (hm : m ∉ target_files startC endC files) :
    fsRead (main_run startC endC files fs0).fs m = fsRead fs0 m := by
  unfold main_run
  rw [pass2_loop_frame hm, pass1_loop_frame hm]

/-- C4 (confirmed). Scope correctness of the chapter selector: a filename
from the listing is selected exactly when its leading integer parses and
lies in the inclusive range; the selected list ascends by chapter number;
and a filename with no parseable leading integer is never selected and its
stored content is untouched by a whole run. -/
theorem selector_scope_correctness (startC endC : Nat) (files : List String)
    (fs0 : FS) (f : String) :
    (f ∈ target_files startC endC files ↔
       f ∈ files ∧ ∃ n, get_chapter_number f.toList = some n ∧
         startC ≤ n ∧ n ≤ endC) ∧
    (target_files startC endC files).Pairwise (fun a b => chapKey a ≤ chapKey b) ∧
    (get_chapter_number f.toList = none →
       f ∉ target_files startC endC files ∧
       fsRead (main_run startC endC files fs0).fs f = fsRead fs0 f) := by
  have hmem : f ∈ target_files startC endC files ↔
      f ∈ files ∧ ∃ n, get_chapter_number f.toList = some n ∧
        startC ≤ n ∧ n ≤ endC := by
    unfold target_files
    rw [mem_sortByKey, List.mem_filter, should_process_iff]
  refine ⟨hmem, pairwise_sortByKey, fun hnone => ?_⟩
  have hnot : f ∉ target_files startC endC files := by
    intro hf
    rcases (hmem.mp hf).2 with ⟨n, hn, -⟩
    rw [hnone] at hn
    exact absurd hn (by simp)
  exact ⟨hnot, main_run_frame hnot⟩

/-- Witness for C4 at a filename without a parseable leading integer. -/
theorem selector_scope_correctness_witness :
    "x.html" ∉ target_files 1 378 ["x.html"] ∧
    fsRead (main_run 1 378 ["x.html"] []).fs "x.html" = fsRead [] "x.html" :=
  (selector_scope_correctness 1 378 ["x.html"] [] "x.html").2.2 (by decide)

/-- Dropping digits from a digit run stops at the first non-digit. -/
theorem dropWhile_digits_append {ds rest : List Char} {c : Char}
    (hdig : ∀ d ∈ ds, d.isDigit = true) (hc : c.isDigit = false) :
    (ds ++ c :: rest).dropWhile Char.isDigit = c :: rest := by
  induction ds with
  | nil => simp [List.dropWhile_cons, hc]
  | cons d t ih =>
    have hd : d.isDigit = true := hdig d (List.mem_cons_self d t)
    rw [List.cons_append, List.dropWhile_cons, hd]
    simp only [if_true]
    exact ih (fun x hx => hdig x (List.mem_cons_of_mem d hx))

/-- C10 (confirmed). The filename separator is exactly a hyphen: when the
leading digits are followed by any other non-digit character, chapter
extraction returns none, the file fails the range test for every range, it
is never selected, and a whole run leaves its stored content untouched. -/
theorem separator_must_be_hyphen (ds rest : List Char) (c : Char) (startC endC : Nat)
    (files : List String) (fs0 : FS) (_hds : ds ≠ [])
    (hdig : ∀ d ∈ ds, d.isDigit = true) (hc : c.isDigit = false) (hch : c ≠ '-') :
    get_chapter_number (ds ++ c :: rest) = none ∧
    should_process_file startC endC (ds ++ c :: rest) = false ∧
    String.mk (ds ++ c :: rest) ∉ target_files startC endC files ∧
    fsRead (main_run startC endC files fs0).fs (String.mk (ds ++ c :: rest)) =
      fsRead fs0 (String.mk (ds ++ c :: rest)) := by
  have hnone : get_chapter_number (ds ++ c :: rest) = none := by
    unfold get_chapter_number
    rw [dropWhile_digits_append hdig hc]
    split
    · next heq => injection heq with h1 _; exact absurd h1 hch
    · rfl
  have hsp : should_process_file startC endC (ds ++ c :: rest) = false := by
    unfold should_process_file
    rw [hnone]
  have hnotmem : String.mk (ds ++ c :: rest) ∉ target_files startC endC files := by
    intro hf
    have hmem := (List.mem_filter.mp (mem_sortByKey.mp hf)).2
    have htl : (String.mk (ds ++ c :: rest)).toList = ds ++ c :: rest := rfl
    rw [htl, hsp] at hmem
    exact absurd hmem (by simp)
  exact ⟨hnone, hsp, hnotmem, main_run_frame hnotmem⟩

/-- Witness for C10 at the filename 12.html inside the configured range. -/
theorem separator_must_be_hyphen_witness :
    get_chapter_number ("12".toList ++ '.' :: "html".toList) = none ∧
    should_process_file 1 378 ("12".toList ++ '.' :: "html".toList) = false ∧
    String.mk ("12".toList ++ '.' :: "html".toList) ∉ target_files 1 378 ["12.html"] ∧
    fsRead (main_run 1 378 ["12.html"] []).fs
        (String.mk ("12".toList ++ '.' :: "html".toList)) =
      fsRead [] (String.mk ("12".toList ++ '.' :: "html".toList)) :=
  separator_must_be_hyphen "12".toList "html".toList '.' 1 378 ["12.html"] []
    (by decide) (by decide) (by decide) (by decide)

/-- Soundness of the fueled backtracking matcher with respect to the
declarative semantics: every returned split consumed a word the pattern
matches. -/
theorem mat_sound (fuel : Nat) : ∀ {r : RE} {s : List Char} {p : List Char × Caps},
    p ∈ mat fuel r s → ∃ u, s = u ++ p.1 ∧ Sem r u := by
  induction fuel with
  | zero => intro r s p hp; simp [mat] at hp
  | succ n ih =>
    intro r s p hp
    cases r with
    | eps =>
      simp only [mat, List.mem_singleton] at hp
      subst hp
      exact ⟨[], rfl, Sem.eps⟩
    | chP f =>
      cases s with
      | nil => simp [mat] at hp
      | cons c rest =>
        simp only [mat] at hp
        by_cases hf : f c = true
        · rw [if_pos hf] at hp
          simp only [List.mem_singleton] at hp
          subst hp
          exact ⟨[c], rfl, Sem.chP hf⟩
        · rw [if_neg hf] at hp; simp at hp
    | seq a b =>
      simp only [mat, List.mem_flatMap, List.mem_map] at hp
      obtain ⟨q, hq, w, hw, hwp⟩ := hp
      obtain ⟨u1, rfl, hu1⟩ := ih hq
      obtain ⟨u2, hq1, hu2⟩ := ih hw
      refine ⟨u1 ++ u2, ?_, Sem.seq hu1 hu2⟩
      rw [← hwp]
      simp [hq1]
    | alt a b =>
      simp only [mat, List.mem_append] at hp
      rcases hp with hp | hp
      · obtain ⟨u, rfl, hu⟩ := ih hp
        exact ⟨u, rfl, Sem.altL hu⟩
      · obtain ⟨u, rfl, hu⟩ := ih hp
        exact ⟨u, rfl, Sem.altR hu⟩
    | star g a =>
      have hp' : p ∈ ((mat n a s).filter (fun q => q.1.length < s.length)).flatMap
            (fun q => (mat n (.star g a) q.1).map (fun w => (w.1, q.2 ++ w.2))) ∨
          p = (s, ([] : Caps)) := by
        simp only [mat] at hp
        cases g with
        | true => simpa using List.mem_append.mp hp
        | false =>
          rcases List.mem_cons.mp hp with h | h
          · exact Or.inr h
          · exact Or.inl h
      rcases hp' with hp' | rfl
      · simp only [List.mem_flatMap, List.mem_map, List.mem_filter] at hp'
        obtain ⟨q, ⟨hq, -⟩, w, hw, hwp⟩ := hp'
        obtain ⟨u1, rfl, hu1⟩ := ih hq
        obtain ⟨u2, hq1, hu2⟩ := ih hw
        refine ⟨u1 ++ u2, ?_, Sem.starCons hu1 hu2⟩
        rw [← hwp]
        simp [hq1]
      · exact ⟨[], rfl, Sem.starNil⟩
    | group k a =>
      simp only [mat, List.mem_map] at hp
      obtain ⟨q, hq, hqp⟩ := hp
      obtain ⟨u, rfl, hu⟩ := ih hq
      exact ⟨u, by rw [← hqp], Sem.group hu⟩

/-- The head of a list is a member. -/
theorem head?_mem {α : Type} {l : List α} {x : α} (h : l.head? = some x) : x ∈ l := by
  cases l with
  | nil => simp at h
  | cons a t => simp_all

/-- Soundness of the anchored match the search commits to at one
position: the text splits as the consumed prefix plus the remainder, and
the consumed prefix satisfies the pattern. -/
theorem matTop_head_sound {r : RE} {s : List Char} {p : List Char × Caps}
    (hp : (matTop r s).head? = some p) :
    s = s.take (s.length - p.1.length) ++ p.1 ∧
    Sem r (s.take (s.length - p.1.length)) := by
  obtain ⟨u, hu, hsem⟩ := mat_sound _ (head?_mem hp)
  have htake : s.take (s.length - p.1.length) = u := by
    subst hu
    rw [List.length_append, Nat.add_sub_cancel, List.take_left]
  rw [htake]
  exact ⟨hu, hsem⟩

/-- Soundness of the leftmost search: the text splits around a matched
word. -/
theorem findAux_sound {r : RE} {s : List Char} {m : MatchRes}
    (h : findAux r s = some m) :
    s = m.pre ++ m.matched ++ m.rest ∧ Sem r m.matched := by
  induction s generalizing m with
  | nil =>
    unfold findAux at h
    split at h
    · next p hp =>
      obtain rfl := ((Option.some.injEq _ _).mp h)
      obtain ⟨h1, h2⟩ := matTop_head_sound hp
      exact ⟨by simpa using h1, h2⟩
    · simp at h
  | cons c t ih =>
    unfold findAux at h
    split at h
    · next p hp =>
      obtain rfl := ((Option.some.injEq _ _).mp h)
      obtain ⟨h1, h2⟩ := matTop_head_sound hp
      exact ⟨by simpa using h1, h2⟩
    · obtain ⟨m', hm', rfl⟩ := Option.map_eq_some'.mp h
      obtain ⟨h1, h2⟩ := ih hm'
      refine ⟨?_, h2⟩
      simp [h1]

/-- Only the empty word matches the empty pattern. -/
theorem sem_eps_inv {u : List Char} (h : Sem .eps u) : u = [] := by cases h; rfl

/-- A word matching a character class is that one character. -/
theorem sem_chP_inv {f : Char → Bool} {u : List Char} (h : Sem (.chP f) u) :
    ∃ c, u = [c] ∧ f c = true := by
  cases h with
  | chP hc => exact ⟨_, rfl, hc⟩

/-- A word matching a concatenation splits into matching halves. -/
theorem sem_seq_inv {a b : RE} {u : List Char} (h : Sem (.seq a b) u) :
    ∃ v w, u = v ++ w ∧ Sem a v ∧ Sem b w := by
  cases h with
  | seq hv hw => exact ⟨_, _, rfl, hv, hw⟩

/-- A word matching a case-sensitive literal chain is that literal. -/
theorem sem_lits {l : List Char} {u : List Char}
    (h : Sem (l.foldr (fun c r => .seq (lit c) r) .eps) u) : u = l := by
  induction l generalizing u with
  | nil => simpa using sem_eps_inv h
  | cons c t ih =>
    rcases sem_seq_inv h with ⟨v, w, rfl, hv, hw⟩
    rcases sem_chP_inv hv with ⟨d, rfl, hd⟩
    have hdc : d = c := by simpa using hd
    rw [hdc, ih hw]
    rfl

/-- The substring check coincides with the infix relation. -/
theorem containsSub_spec {needle hay : List Char} :
    containsSub needle hay = true ↔ needle <:+: hay := by
  induction hay with
  | nil => simp [containsSub, List.isEmpty_iff]
  | cons c t ih =>
    unfold containsSub
    rw [Bool.or_eq_true, ih, List.isPrefixOf_iff_prefix, List.infix_cons_iff]

/-- Every word matched by the verifier animation pattern carries both the
fixed-width class and the pulsing-animation token as substrings. -/
theorem sem_verify_anim_infix {w : List Char} (h : Sem pat_verify_anim w) :
    "w-1".toList <:+: w ∧ "animate-pulse".toList <:+: w := by
  rcases sem_seq_inv h with ⟨u1, w1, rfl, h1, h⟩
  rcases sem_seq_inv h with ⟨u2, w2, rfl, h2, h⟩
  rcases sem_seq_inv h with ⟨u3, w3, rfl, h3, h⟩
  rcases sem_seq_inv h with ⟨u4, w4, rfl, h4, h⟩
  rcases sem_seq_inv h with ⟨u5, w5, rfl, h5, h⟩
  have e3 : u3 = "class=\"w-1".toList := sem_lits h3
  have e5 : u5 = "animate-pulse".toList := sem_lits h5
  constructor
  · have hin3 : "w-1".toList <:+: u3 := by rw [e3]; decide
    exact hin3.trans ⟨u1 ++ u2, u4 ++ (u5 ++ w5), by simp⟩
  · have hin5 : "animate-pulse".toList <:+: u5 := by rw [e5]
    exact hin5.trans ⟨u1 ++ (u2 ++ (u3 ++ u4)), w5, by simp⟩

/-- A hit of the verifier animation pattern forces both pre-check
substrings to be present in the text. -/
theorem searchB_anim_substrings {t : List Char}
    (h : searchB pat_verify_anim t = true) :
    inStr "w-1" t = true ∧ inStr "animate-pulse" t = true := by
  unfold searchB at h
  cases ho : findAux pat_verify_anim t with
  | none => rw [ho] at h; simp at h
  | some m =>
    obtain ⟨hsplit, hsem⟩ := findAux_sound ho
    obtain ⟨h1, h2⟩ := sem_verify_anim_infix hsem
    have hmid : m.matched <:+: t := ⟨m.pre, m.rest, hsplit.symm⟩
    exact ⟨containsSub_spec.mpr (h1.trans hmid),
           containsSub_spec.mpr (h2.trans hmid)⟩

/-- C5 (corrected): the already-clean screening is unsound. The text
tOrphan contains none of the pre-check substrings, so process_file records
already_clean without invoking the pipeline, yet the verifier reports the
orphaned closing tag. -/
theorem already_clean_unsound_cex :
    has_ambient tOrphan = false ∧
    process_file [("1-c.html", Entry.ok tOrphan)] "1-c.html" =
      (.already_clean, [("1-c.html", Entry.ok tOrphan)], 0, false) ∧
    verify_text tOrphan = ["Has orphaned </div> after body"] := by
  decide

/-- C5 (corrected), amended: when the pre-check finds no plausible defect
substring, the text can still carry the two orphan-after-body signatures,
but it provably carries neither the ambient-label issue nor the
animation-fragment issue. -/
theorem already_clean_partial_soundness (t : List Char) (h : has_ambient t = false) :
    "Contains \x27Ambient:\x27" ∉ verify_text t ∧
    "Contains animation bars" ∉ verify_text t := by
  have hh := h
  unfold has_ambient at hh
  simp only [Bool.or_eq_false_iff] at hh
  obtain ⟨⟨⟨⟨⟨ha, -⟩, hcd⟩, -⟩, -⟩, -⟩ := hh
  have hA1 : inStr "Ambient:" t = false := by
    cases hx : inStr "Ambient:" t with
    | false => rfl
    | true =>
      have hsub : inStr "Ambient" t = true :=
        containsSub_spec.mpr
          ((show "Ambient".toList <:+: "Ambient:".toList by decide).trans
            (containsSub_spec.mp hx))
      simp [hsub] at ha
  have hA2 : inStr "Ambient :" t = false := by
    cases hx : inStr "Ambient :" t with
    | false => rfl
    | true =>
      have hsub : inStr "Ambient" t = true :=
        containsSub_spec.mpr
          ((show "Ambient".toList <:+: "Ambient :".toList by decide).trans
            (containsSub_spec.mp hx))
      simp [hsub] at ha
  have hAn : searchB pat_verify_anim t = false := by
    cases hx : searchB pat_verify_anim t with
    | false => rfl
    | true =>
      obtain ⟨hw1, hw2⟩ := searchB_anim_substrings hx
      rw [hw2, hw1] at hcd
      simp at hcd
  have hvt : verify_text t =
      (if searchB pat_verify_orphan_close t then ["Has orphaned </div> after body"]
       else []) ++
      (if searchB pat_verify_orphan_widget t then ["Has orphaned div after body"]
       else []) := by
    unfold verify_text
    rw [hA1, hA2, hAn]
    simp
  rw [hvt]
  cases h3 : searchB pat_verify_orphan_close t <;>
    cases h4 : searchB pat_verify_orphan_widget t <;> decide

/-- Witness for the amended C5 at a concrete screened text. -/
theorem already_clean_partial_soundness_witness :
    has_ambient "x".toList = false ∧
    ("Contains \x27Ambient:\x27" ∉ verify_text "x".toList ∧
     "Contains animation bars" ∉ verify_text "x".toList) :=
  ⟨by decide, already_clean_partial_soundness _ (by decide)⟩

/-- A successful write is readable back. -/
theorem fsRead_write_self {fs fs' : FS} {n : String} {c : List Char}
    (h : fsWrite fs n c = some fs') : fsRead fs' n = some c := by
  unfold fsWrite at h
  split at h
  · exact absurd h (by simp)
  · obtain rfl := (Option.some.injEq _ _).mp h
    simp [fsRead, List.lookup]

/-- The first pass produces exactly one record per selected file, whatever
happens to each of them. -/
theorem pass1_loop_names (fs : FS) (names : List String) :
    (pass1_loop fs names).1.map Pass1Rec.name = names := by
  induction names generalizing fs with
  | nil => rfl
  | cons a t ih => simp [pass1_loop, ih]

/-- One first-pass iteration invokes the pipeline at most once. -/
theorem process_file_cleanCalls_le (fs : FS) (name : String) :
    (process_file fs name).2.2.1 ≤ 1 := by
  unfold process_file
  split
  · simp
  · split
    · simp
    · split
      · simp
      · split
        · split <;> simp
        · simp

/-- Every first-pass record has at most one pipeline invocation. -/
theorem pass1_rec_cleanCalls {fs : FS} {names : List String} {r : Pass1Rec}
    (hr : r ∈ (pass1_loop fs names).1) : r.cleanCalls ≤ 1 := by
  induction names generalizing fs with
  | nil => simp [pass1_loop] at hr
  | cons a t ih =>
    simp only [pass1_loop, List.mem_cons] at hr
    rcases hr with rfl | hr
    · exact process_file_cleanCalls_le fs a
    · exact ih hr

/-- Shape of a completed second-pass iteration: it names its file, invokes
the pipeline at most once, invokes it exactly once only when the
verification it ran reported issues, writes exactly when it reported
issues, records those issues, and leaves the file holding the pipeline
output of what it read whenever it wrote. -/
theorem pass2_file_spec {fs fs' : FS} {name : String} {rec : Pass2Rec}
    (h : pass2_file fs name = some (rec, fs')) :
    rec.name = name ∧ rec.cleanCalls ≤ 1 ∧
    (rec.cleanCalls = 1 → rec.issues ≠ []) ∧
    rec.issues = verify_file fs name ∧
    (rec.wrote = true ↔ verify_file fs name ≠ []) ∧
    (rec.wrote = true →
       ∃ content, fsRead fs name = some content ∧
         fsRead fs' name = some (clean_ambient_completely content).1) := by
  unfold pass2_file at h
  split at h
  · next hemp =>
    simp only [Option.some.injEq, Prod.mk.injEq] at h
    obtain ⟨rfl, rfl⟩ := h
    refine ⟨rfl, by simp, by simp, rfl, ?_, by simp⟩
    simp only [List.isEmpty_iff] at hemp
    simp [hemp]
  · next hemp =>
    split at h
    · exact absurd h (by simp)
    · next content heqr =>
      split at h
      · exact absurd h (by simp)
      · next fs'' heqw =>
        simp only [Option.some.injEq, Prod.mk.injEq] at h
        obtain ⟨rfl, rfl⟩ := h
        refine ⟨rfl, by simp, fun _ => ?_, rfl, ?_, fun _ => ⟨content, heqr, fsRead_write_self heqw⟩⟩
        · simpa [List.isEmpty_iff] using hemp
        · simpa [List.isEmpty_iff] using hemp

/-- Every second-pass record is bounded and justified as in
pass2_file_spec. -/
theorem pass2_loop_rec {names : List String} {fs : FS} {rec : Pass2Rec}
    (hr : rec ∈ (pass2_loop fs names).1) :
    rec.cleanCalls ≤ 1 ∧ (rec.cleanCalls = 1 → rec.issues ≠ []) := by
  induction names generalizing fs with
  | nil => simp [pass2_loop] at hr
  | cons a t ih =>
    unfold pass2_loop at hr
    cases hp : pass2_file fs a with
    | none => rw [hp] at hr; simp at hr
    | some pr =>
      rw [hp] at hr
      simp only [List.mem_cons] at hr
      rcases hr with rfl | hr
      · obtain ⟨-, h1, h2, -⟩ :=
          pass2_file_spec (show pass2_file fs a = some (pr.1, pr.2) from by rw [hp])
        exact ⟨h1, h2⟩
      · exact ih hr

/-- The second pass records name a prefix of the selected files. -/
theorem pass2_loop_names_front (fs : FS) (names : List String) :
    (pass2_loop fs names).1.map Pass2Rec.name <+: names := by
  induction names generalizing fs with
  | nil => simp [pass2_loop]
  | cons a t ih =>
    unfold pass2_loop
    cases hp : pass2_file fs a with
    | none => simp
    | some pr =>
      obtain ⟨hname, -⟩ :=
        pass2_file_spec (show pass2_file fs a = some (pr.1, pr.2) from by rw [hp])
      rw [List.map_cons, hname]
      exact List.cons_prefix_cons.mpr ⟨rfl, ih pr.2⟩

/-- Under distinct keys at most one element survives a key filter. -/
theorem length_filter_key_le {α : Type} (key : α → String) {l : List α}
    (hnd : (l.map key).Nodup) (n : String) :
    (l.filter (fun x => key x = n)).length ≤ 1 := by
  induction l with
  | nil => simp
  | cons a t ih =>
    rw [List.map_cons, List.nodup_cons] at hnd
    obtain ⟨hna, hnd'⟩ := hnd
    rw [List.filter_cons]
    split
    · next hka =>
      have hkan : key a = n := by simpa using hka
      have hnil : t.filter (fun x => key x = n) = [] := by
        rw [List.filter_eq_nil_iff]
        intro x hx hkx
        have hkxn : key x = n := by simpa using hkx
        have hax : key a = key x := by rw [hkan, hkxn]
        exact hna (hax ▸ List.mem_map_of_mem key hx)
      simp [hnil]
    · exact ih hnd'

/-- A sum of flags bounded by one over at most one survivor is at most
one. -/
theorem sum_le_one_of_nodup_key {α : Type} (key : α → String) (val : α → Nat)
    {l : List α} (hnd : (l.map key).Nodup) (hval : ∀ x ∈ l, val x ≤ 1)
    (n : String) :
    (((l.filter (fun x => key x = n)).map val).sum) ≤ 1 := by
  have hlen := length_filter_key_le key hnd n
  have hall : ∀ x ∈ (l.filter (fun x => key x = n)).map val, x ≤ 1 := by
    intro x hx
    rcases List.mem_map.mp hx with ⟨y, hy, rfl⟩
    exact hval y (List.mem_of_mem_filter hy)
  have hsum := List.sum_le_card_nsmul ((l.filter (fun x => key x = n)).map val) 1 hall
  have hlen' : ((l.filter (fun x => key x = n)).map val).length ≤ 1 := by
    simpa using hlen
  calc ((l.filter (fun x => key x = n)).map val).sum
      ≤ ((l.filter (fun x => key x = n)).map val).length • 1 := hsum
    _ = ((l.filter (fun x => key x = n)).map val).length := by simp
    _ ≤ 1 := hlen'

/-- C7 (confirmed). Bounded retry: in one run each document sees at most
two pipeline invocations (at most one per pass); a second-pass record
invokes the pipeline exactly once only when the verification it ran
reported issues; and a record whose re-verification still reported issues
lands in the needs-attention list — there is no third invocation. -/
theorem bounded_retry (startC endC : Nat) (files : List String) (fs0 : FS)
    (hnd : (target_files startC endC files).Nodup) (name : String) :
    cleanCallsFor (main_run startC endC files fs0) name ≤ 2 ∧
    (∀ r ∈ (main_run startC endC files fs0).results, r.cleanCalls ≤ 1) ∧
    (∀ r ∈ (main_run startC endC files fs0).pass2,
       r.cleanCalls ≤ 1 ∧ (r.cleanCalls = 1 → r.issues ≠ []) ∧
       ∀ iss, r.attention = some iss →
         iss ∈ (main_run startC endC files fs0).needs_attention) := by
  have hres : (main_run startC endC files fs0).results =
      (pass1_loop fs0 (target_files startC endC files)).1 := rfl
  have hp2 : (main_run startC endC files fs0).pass2 =
      (pass2_loop (pass1_loop fs0 (target_files startC endC files)).2
        (target_files startC endC files)).1 := rfl
  refine ⟨?_, ?_, ?_⟩
  · unfold cleanCallsFor
    rw [hres, hp2]
    have hb1 : (((pass1_loop fs0 (target_files startC endC files)).1.filter
        (fun r => r.name = name)).map Pass1Rec.cleanCalls).sum ≤ 1 := by
      apply sum_le_one_of_nodup_key Pass1Rec.name Pass1Rec.cleanCalls
      · rw [pass1_loop_names]; exact hnd
      · intro r hr; exact pass1_rec_cleanCalls hr
    have hb2 : (((pass2_loop (pass1_loop fs0 (target_files startC endC files)).2
          (target_files startC endC files)).1.filter
        (fun r => r.name = name)).map Pass2Rec.cleanCalls).sum ≤ 1 := by
      apply sum_le_one_of_nodup_key Pass2Rec.name Pass2Rec.cleanCalls
      · exact ((pass2_loop_names_front _ _).sublist.nodup hnd)
      · intro r hr; exact (pass2_loop_rec hr).1
    omega
  · rw [hres]
    intro r hr
    exact pass1_rec_cleanCalls hr
  · rw [hp2]
    intro r hr
    refine ⟨(pass2_loop_rec hr).1, (pass2_loop_rec hr).2, fun iss hiss => ?_⟩
    have hna : (main_run startC endC files fs0).needs_attention =
        (main_run startC endC files fs0).pass2.filterMap Pass2Rec.attention := rfl
    rw [hna, hp2]
    exact List.mem_filterMap.mpr ⟨r, hr, hiss⟩

/-- Witness for C7 on a one-document corpus whose document remains dirty
after both passes. -/
theorem bounded_retry_witness :
    cleanCallsFor (main_run 1 378 ["1-a.html"] [("1-a.html", Entry.ok tStuck)])
        "1-a.html" ≤ 2 ∧
    (∀ r ∈ (main_run 1 378 ["1-a.html"] [("1-a.html", Entry.ok tStuck)]).results,
       r.cleanCalls ≤ 1) ∧
    (∀ r ∈ (main_run 1 378 ["1-a.html"] [("1-a.html", Entry.ok tStuck)]).pass2,
       r.cleanCalls ≤ 1 ∧ (r.cleanCalls = 1 → r.issues ≠ []) ∧
       ∀ iss, r.attention = some iss →
         iss ∈ (main_run 1 378 ["1-a.html"]
             [("1-a.html", Entry.ok tStuck)]).needs_attention) :=
  bounded_retry 1 378 ["1-a.html"] [("1-a.html", Entry.ok tStuck)] (by decide)
    "1-a.html"

/-- C8 (corrected): the write-only-if-changed contract fails in the
second pass. On the tStuck corpus the pipeline never changes the text (the
first pass records no write), yet the second pass, seeing verification
issues, rewrites the file with the identical pipeline output. -/
theorem write_only_if_changed_cex :
    (clean_ambient_completely tStuck).2 = false ∧
    (main_run 1 378 ["1-a.html"] [("1-a.html", Entry.ok tStuck)]).results.map
        Pass1Rec.wrote = [false] ∧
    (main_run 1 378 ["1-a.html"] [("1-a.html", Entry.ok tStuck)]).pass2.map
        Pass2Rec.wrote = [true] ∧
    fsRead (main_run 1 378 ["1-a.html"] [("1-a.html", Entry.ok tStuck)]).fs
        "1-a.html" = some tStuck := by
  decide

/-- C8 (corrected), amended: in the first pass a document is written
exactly when the pipeline changed its text (and then holds the pipeline
output); a first-pass document whose text the pipeline left alone is never
written and the directory is untouched; in the second pass a document is
rewritten exactly when its verification reported issues — even when the
pipeline output is byte-identical — and then holds the pipeline output of
what was read, so on-disk content still never differs from the pipeline
output. -/
theorem write_behavior (fs : FS) (name : String) :
    ((process_file fs name).2.2.2 = true →
       ∃ content, fsRead fs name = some content ∧
         (clean_ambient_completely content).2 = true ∧
         fsRead (process_file fs name).2.1 name =
           some (clean_ambient_completely content).1) ∧
    (∀ content, fsRead fs name = some content →
       (clean_ambient_completely content).2 = false →
       (process_file fs name).2.1 = fs ∧ (process_file fs name).2.2.2 = false) ∧
    (∀ rec fs', pass2_file fs name = some (rec, fs') →
       (rec.wrote = true ↔ verify_file fs name ≠ []) ∧
       (rec.wrote = true →
          ∃ content, fsRead fs name = some content ∧
            fsRead fs' name = some (clean_ambient_completely content).1)) := by
  refine ⟨?_, ?_, ?_⟩
  · unfold process_file
    split
    · intro h; simp at h
    · split
      · intro h; simp at h
      · next content heqr =>
        split
        · intro h; simp at h
        · split
          · next hch =>
            split
            · intro h; simp at h
            · next fs' heqw =>
              intro _
              exact ⟨content, heqr, hch, fsRead_write_self heqw⟩
          · intro h; simp at h
  · intro content heqr hch
    unfold process_file
    split
    · exact ⟨rfl, rfl⟩
    · split
      · next heq => rw [heq] at heqr; exact absurd heqr (by simp)
      · next content' heq =>
        rw [heq] at heqr
        obtain rfl := (Option.some.injEq _ _).mp heqr
        split
        · exact ⟨rfl, rfl⟩
        · split
          · next hch' => rw [hch] at hch'; exact absurd hch' (by simp)
          · exact ⟨rfl, rfl⟩
  · intro rec fs' hp
    obtain ⟨-, -, -, -, hiff, hcontent⟩ := pass2_file_spec hp
    exact ⟨hiff, hcontent⟩

/-- Witness for the amended C8: a changing document is written in pass 1
with the pipeline output, and an unchanged document is not written. -/
theorem write_behavior_witness :
    (∃ content, fsRead [("1-a.html", Entry.ok tRegr)] "1-a.html" = some content ∧
       (clean_ambient_completely content).2 = true ∧
       fsRead (process_file [("1-a.html", Entry.ok tRegr)] "1-a.html").2.1
           "1-a.html" = some (clean_ambient_completely content).1) ∧
    ((process_file [("1-a.html", Entry.ok tStuck)] "1-a.html").2.1 =
        [("1-a.html", Entry.ok tStuck)] ∧
     (process_file [("1-a.html", Entry.ok tStuck)] "1-a.html").2.2.2 = false) :=
  ⟨(write_behavior [("1-a.html", Entry.ok tRegr)] "1-a.html").1 (by decide),
   (write_behavior [("1-a.html", Entry.ok tStuck)] "1-a.html").2.1 tStuck rfl
     (by decide)⟩

/-- A first-pass iteration whose read raises records the error outcome. -/
theorem process_file_io_error {fs : FS} {name : String}
    (hchap : (get_chapter_number name.toList).isNone = false)
    (hread : fsRead fs name = none) :
    (process_file fs name).1 = .error := by
  unfold process_file
  rw [if_neg (by rw [hchap]; simp), hread]

/-- A write to a readable file succeeds. -/
theorem fsWrite_some_of_read {fs : FS} {n : String} {c : List Char} (d : List Char)
    (h : fsRead fs n = some c) : ∃ fs', fsWrite fs n d = some fs' := by
  unfold fsRead at h
  unfold fsWrite
  split
  · next hl => rw [hl] at h; exact absurd h (by simp)
  · exact ⟨_, rfl⟩

/-- A second-pass iteration on a readable file does not raise, and leaves
the file readable. -/
theorem pass2_file_some_of_readable {fs : FS} {name : String}
    (h : (fsRead fs name).isSome = true) :
    ∃ rec fs', pass2_file fs name = some (rec, fs') ∧
      (fsRead fs' name).isSome = true := by
  obtain ⟨c, hc⟩ := Option.isSome_iff_exists.mp h
  by_cases hemp : (verify_file fs name).isEmpty = true
  · exact ⟨_, fs, by unfold pass2_file; rw [if_pos hemp], h⟩
  · obtain ⟨fs', hw⟩ := fsWrite_some_of_read (clean_ambient_completely c).1 hc
    refine ⟨⟨name, verify_file fs name, 1, true,
        if (verify_file fs' name).isEmpty then none
        else some (name, verify_file fs' name)⟩, fs', ?_,
      by rw [fsRead_write_self hw]; rfl⟩
    unfold pass2_file
    rw [if_neg hemp, hc]
    simp only [hw]

/-- The second pass runs to completion when every selected file is
readable when the pass starts. -/
theorem pass2_loop_completes {names : List String} {fs : FS}
    (h : ∀ n ∈ names, (fsRead fs n).isSome = true) :
    (pass2_loop fs names).2.2 = true := by
  induction names generalizing fs with
  | nil => rfl
  | cons a t ih =>
    obtain ⟨rec, fs', hp, hread'⟩ :=
      pass2_file_some_of_readable (h a (List.mem_cons_self a t))
    unfold pass2_loop
    rw [hp]
    apply ih
    intro n hn
    by_cases hna : n = a
    · subst hna; exact hread'
    · rw [pass2_file_frame hp hna]
      exact h n (List.mem_cons_of_mem a hn)

/-- C9 (corrected), amended: the first pass is containment-correct — it
yields one record per selected document even when file IO fails, and a
failing read is recorded as the error outcome — and the run completes
with its summary whenever the unprotected IO of the second pass has
readable files to work on; but (see the counterexample) a document whose
IO fails makes the second-pass re-clean raise outside any handler and the
run aborts without a summary. -/
theorem error_containment (startC endC : Nat) (files : List String) (fs0 : FS) :
    (main_run startC endC files fs0).results.map Pass1Rec.name =
      target_files startC endC files ∧
    (∀ name fs, (get_chapter_number name.toList).isNone = false →
       fsRead fs name = none → (process_file fs name).1 = .error) ∧
    ((∀ n ∈ target_files startC endC files,
        (fsRead (pass1_loop fs0 (target_files startC endC files)).2 n).isSome
          = true) →
       (main_run startC endC files fs0).completed = true ∧
       (main_run startC endC files fs0).summaryEmitted = true) := by
  refine ⟨pass1_loop_names fs0 _, fun name fs h1 h2 => process_file_io_error h1 h2,
    fun hread => ?_⟩
  have hc : (main_run startC endC files fs0).completed = true :=
    pass2_loop_completes hread
  exact ⟨hc, hc⟩

/-- Witness for the amended C9: an unreadable name is an error outcome;
a readable corpus completes with its summary. -/
theorem error_containment_witness :
    (process_file ([] : FS) "1-a.html").1 = .error ∧
    ((main_run 1 378 ["1-a.html"] [("1-a.html", Entry.ok tStuck)]).completed
        = true ∧
     (main_run 1 378 ["1-a.html"] [("1-a.html", Entry.ok tStuck)]).summaryEmitted
        = true) :=
  ⟨(error_containment 1 378 [] []).2.1 "1-a.html" [] (by decide) rfl,
   (error_containment 1 378 ["1-a.html"] [("1-a.html", Entry.ok tStuck)]).2.2
     (by decide)⟩

/-- C9 (corrected): containment does not extend to the second pass. With a
single in-range document whose IO always fails, the first pass catches the
failure and records the error outcome, but the second pass re-clean reads
the file outside any handler, so the run aborts: it does not complete and
no summary is emitted, contrary to the claim. -/
theorem run_abort_cex :
    (main_run 1 378 ["1-a.html"] [("1-a.html", Entry.bad)]).results.map
        Pass1Rec.outcome = [Outcome.error] ∧
    (main_run 1 378 ["1-a.html"] [("1-a.html", Entry.bad)]).completed = false ∧
    (main_run 1 378 ["1-a.html"] [("1-a.html", Entry.bad)]).summaryEmitted
      = false := by
  decide

end AmbientCleaner

